import Mathlib

/-!
Verification of the generator core of `main.py` (notification generator).

Strings are modelled as `List Char`.  Python functions are translated into
executable Lean definitions; GUI, clock, randomness and real I/O are abstracted
into explicit oracle parameters whose contracts appear as hypotheses of the
theorems.
-/

namespace NotifGen

/-- Whitespace characters recognised by Python's `str.split()` / `str.strip()`,
restricted to the ASCII range (the inputs of this application are templates and
digit lists; non-ASCII Unicode whitespace is not modelled). -/
def isPySpace (c : Char) : Bool :=
  c = ' ' || c = '\t' || c = '\n' || c = '\r' || c = '\x0b' || c = '\x0c'

/-- Helper for `splitWs`: `cur` holds the characters of the current token in
reverse order. -/
def splitWsAux : List Char → List Char → List (List Char)
  | cur, [] => if cur.isEmpty then [] else [cur.reverse]
  | cur, c :: rest =>
    if isPySpace c then
      if cur.isEmpty then splitWsAux [] rest
      else cur.reverse :: splitWsAux [] rest
    else splitWsAux (c :: cur) rest

/-- Python `str.split()` with no argument: split on runs of whitespace and drop
empty tokens. -/
def splitWs (s : List Char) : List (List Char) :=
  splitWsAux [] s

/-- The `text.replace(",", " ")` step of `parse_apartments` (main.py line 58). -/
def commasToSpaces (s : List Char) : List Char :=
  s.map (fun c => if c = ',' then ' ' else c)

/-- The tokenisation part of `parse_apartments` (main.py lines 57-64): split the
comma-normalised text on whitespace, keep only the digit characters of each
token, and drop tokens with no digit.  (The source's `token.strip()` and
`token == ""` checks are no-ops after `split()`, which never returns empty or
whitespace-carrying tokens.  Python's `str.isdigit` is modelled on the ASCII
range by `Char.isDigit`.) -/
def digitTokens (s : List Char) : List (List Char) :=
  ((splitWs (commasToSpaces s)).map (fun t => t.filter Char.isDigit)).filter
    (fun t => !t.isEmpty)

/-- The deduplication loop of `parse_apartments` (main.py lines 65-70); the
`seen` set is modelled as a list queried by membership. -/
def dedupSeen (seen : List (List Char)) : List (List Char) → List (List Char)
  | [] => []
  | p :: ps => if p ∈ seen then dedupSeen seen ps else p :: dedupSeen (p :: seen) ps

/-- `parse_apartments` (main.py lines 56-71), on text modelled as a character
list. -/
def parse_apartments (text : List Char) : List (List Char) :=
  dedupSeen [] (digitTokens text)

/-- Deduplication keeping the first occurrence of each element, written so that
the first-occurrence order is structurally explicit: the head is kept and every
later copy of it is removed before recursing.  This is the specification-side
description of "deduplicate while preserving first-seen order", to be compared
with the source-side `dedupSeen` loop. -/
def dedupFirst : List (List Char) → List (List Char)
  | [] => []
  | x :: xs => x :: dedupFirst (xs.filter (fun y => y ≠ x))
termination_by l => l.length
decreasing_by
  simp only [List.length_cons]
  exact Nat.lt_succ_of_le (List.length_filter_le _ _)

theorem dedupSeen_congr (s₁ s₂ : List (List Char))
    (h : ∀ x, x ∈ s₁ ↔ x ∈ s₂) : ∀ l, dedupSeen s₁ l = dedupSeen s₂ l := by
  intro l
  induction l generalizing s₁ s₂ with
  | nil => rfl
  | cons p ps ih =>
    simp only [dedupSeen]
    by_cases hp : p ∈ s₁
    · rw [if_pos hp, if_pos ((h p).mp hp), ih s₁ s₂ h]
    · rw [if_neg hp, if_neg (fun hc => hp ((h p).mpr hc))]
      have h' : ∀ x, x ∈ p :: s₁ ↔ x ∈ p :: s₂ := by
        intro x; simp only [List.mem_cons]; rw [h x]
      rw [ih (p :: s₁) (p :: s₂) h']

theorem dedupSeen_cons (a : List Char) :
    ∀ (l : List (List Char)) (s : List (List Char)),
      dedupSeen (a :: s) l = dedupSeen s (l.filter (fun y => y ≠ a)) := by
  intro l
  induction l with
  | nil => intro s; rfl
  | cons p ps ih =>
    intro s
    by_cases hpa : p = a
    · subst hpa
      rw [List.filter_cons_of_neg (by simp)]
      simp only [dedupSeen]
      rw [if_pos (List.mem_cons_self p s)]
      exact ih s
    · rw [List.filter_cons_of_pos (by simp [hpa])]
      simp only [dedupSeen]
      by_cases hps : p ∈ s
      · rw [if_pos (List.mem_cons_of_mem a hps), if_pos hps]
        exact ih s
      · have hpas : p ∉ a :: s := by
          simp only [List.mem_cons]; rintro (h | h) <;> [exact hpa h; exact hps h]
        rw [if_neg hpas, if_neg hps]
        have hcongr : dedupSeen (p :: a :: s) ps = dedupSeen (a :: p :: s) ps := by
          refine dedupSeen_congr _ _ (fun x => ?_) ps
          simp only [List.mem_cons]; tauto
        rw [hcongr, ih (p :: s)]

theorem dedupSeen_nil_eq_dedupFirst : ∀ (n : Nat) (l : List (List Char)),
    l.length ≤ n → dedupSeen [] l = dedupFirst l := by
  intro n
  induction n with
  | zero =>
    intro l hl
    have : l = [] := List.length_eq_zero.mp (Nat.le_zero.mp hl)
    subst this; simp [dedupSeen, dedupFirst]
  | succ n ih =>
    intro l hl
    match l with
    | [] => simp [dedupSeen, dedupFirst]
    | p :: ps =>
      simp only [dedupSeen]
      rw [if_neg (List.not_mem_nil p)]
      rw [dedupSeen_cons p ps []]
      have hlen : (ps.filter (fun y => y ≠ p)).length ≤ n := by
        have h1 : (ps.filter (fun y => y ≠ p)).length ≤ ps.length :=
          List.length_filter_le _ _
        have h2 : ps.length ≤ n := by
          simpa [Nat.succ_le_succ_iff] using hl
        omega
      rw [ih _ hlen]
      conv_rhs => rw [dedupFirst]

theorem mem_dedupFirst : ∀ (n : Nat) (l : List (List Char)) (a : List Char),
    l.length ≤ n → a ∈ dedupFirst l → a ∈ l := by
  intro n
  induction n with
  | zero =>
    intro l a hl
    have : l = [] := List.length_eq_zero.mp (Nat.le_zero.mp hl)
    subst this; simp [dedupFirst]
  | succ n ih =>
    intro l a hl hmem
    match l with
    | [] => simp [dedupFirst] at hmem
    | x :: xs =>
      rw [dedupFirst] at hmem
      rcases List.mem_cons.mp hmem with h | h
      · exact h ▸ List.mem_cons_self x xs
      · have hlen : (xs.filter (fun y => y ≠ x)).length ≤ n := by
          have h1 : (xs.filter (fun y => y ≠ x)).length ≤ xs.length :=
            List.length_filter_le _ _
          have h2 : xs.length ≤ n := by simpa [Nat.succ_le_succ_iff] using hl
          omega
        have := ih _ a hlen h
        exact List.mem_cons_of_mem x (List.mem_of_mem_filter this)

theorem dedupFirst_nodup : ∀ (n : Nat) (l : List (List Char)),
    l.length ≤ n → (dedupFirst l).Nodup := by
  intro n
  induction n with
  | zero =>
    intro l hl
    have : l = [] := List.length_eq_zero.mp (Nat.le_zero.mp hl)
    subst this; simp [dedupFirst]
  | succ n ih =>
    intro l hl
    match l with
    | [] => simp [dedupFirst]
    | x :: xs =>
      rw [dedupFirst]
      have hlen : (xs.filter (fun y => y ≠ x)).length ≤ n := by
        have h1 : (xs.filter (fun y => y ≠ x)).length ≤ xs.length :=
          List.length_filter_le _ _
        have h2 : xs.length ≤ n := by simpa [Nat.succ_le_succ_iff] using hl
        omega
      refine List.nodup_cons.mpr ⟨fun hmem => ?_, ih _ hlen⟩
      have hx := mem_dedupFirst n _ x hlen hmem
      have := List.of_mem_filter hx
      simp at this

/-- C1: `parse_apartments` splits its input on commas and whitespace uniformly,
keeps from each token only its digit characters, drops tokens with no digit
(all of which is the definition of `digitTokens`), and deduplicates the result
keeping the first occurrence of each identifier in order (`dedupFirst`); hence
its output has no duplicates, and input `"12, 12 13\n14a"` yields
`["12", "13", "14"]`. -/
theorem parse_apartments_correct :
    (∀ text : List Char,
        (parse_apartments text).Nodup ∧
        parse_apartments text = dedupFirst (digitTokens text)) ∧
    parse_apartments ("12, 12 13\n14a".data) =
      ["12".data, "13".data, "14".data] := by
  constructor
  · intro text
    have heq : parse_apartments text = dedupFirst (digitTokens text) :=
      dedupSeen_nil_eq_dedupFirst (digitTokens text).length _ le_rfl
    exact ⟨heq ▸ dedupFirst_nodup (digitTokens text).length _ le_rfl, heq⟩
  · decide

/-- C9: every identifier in the output of `parse_apartments` is a non-empty
string of digit characters; consequently distinct raw tokens with the same
digit content collapse into one entry: `"12 1a2"` yields just `["12"]`. -/
theorem parse_apartments_digit_ids :
    (∀ (text a : List Char), a ∈ parse_apartments text →
        a ≠ [] ∧ ∀ c ∈ a, c.isDigit = true) ∧
    parse_apartments ("12 1a2".data) = ["12".data] := by
  constructor
  · intro text a ha
    rw [parse_apartments, dedupSeen_nil_eq_dedupFirst (digitTokens text).length _ le_rfl] at ha
    have ha' : a ∈ digitTokens text := mem_dedupFirst _ _ _ le_rfl ha
    rw [digitTokens] at ha'
    have hne : (!a.isEmpty) = true := (List.mem_filter.mp ha').2
    have hmap := (List.mem_filter.mp ha').1
    rcases List.mem_map.mp hmap with ⟨t, _, rfl⟩
    refine ⟨fun h => by rw [h] at hne; simp at hne,
      fun c hc => (List.mem_filter.mp hc).2⟩
  · decide

theorem parse_apartments_digit_ids_witness :
    "12".data ≠ [] ∧ ∀ c ∈ "12".data, c.isDigit = true :=
  parse_apartments_digit_ids.1 ("12 1a2".data) ("12".data) (by decide)

/-- Python `datetime.time` values as used by the sampler: hour, minute and
second, with the invariants `datetime.time` itself enforces. -/
structure PyTime where
  hour : Nat
  minute : Nat
  second : Nat
  hour_lt : hour < 24
  minute_lt : minute < 60
  second_lt : second < 60

/-- Seconds since midnight, as computed at main.py lines 77-78. -/
def timeSeconds (t : PyTime) : Int :=
  (t.hour : Int) * 3600 + (t.minute : Int) * 60 + (t.second : Int)

/-- `random_datetime_between` (main.py lines 73-84).  Dates are modelled as
integer day numbers: `end_date - start_date` is the `.days` of the Python date
difference and adding `timedelta(days = n)` adds `n`.  `random.randint` is
passed in as an oracle `randint`; its contract (`a ≤ randint a b ≤ b` whenever
`a ≤ b`) is a hypothesis of the theorem below.  The result is the chosen day
number together with the hour and minute fields of the constructed datetime. -/
def random_datetime_between (randint : Int → Int → Int)
    (start_date end_date : Int) (start_time end_time : PyTime) :
    Int × Int × Int :=
  let days_delta := end_date - start_date
  let rand_day := randint 0 (max 0 days_delta)
  let chosen_date := start_date + rand_day
  let st_seconds := timeSeconds start_time
  let en_seconds := timeSeconds end_time
  let en_seconds' := if en_seconds < st_seconds then st_seconds else en_seconds
  let rand_seconds := randint st_seconds en_seconds'
  let hours := rand_seconds / 3600
  let mins := rand_seconds % 3600 / 60
  (chosen_date, hours, mins)

/-- C2: for every window and every behaviour of the random draws within the
randint contract, the sampled date lies in `[start_date, max start_date
end_date]` and equals `start_date` when `end_date < start_date`; the sampled
time-of-day (hour and minute, i.e. seconds truncated to minutes) lies within
the minute-truncated time window, and equals `start_time`'s hour and minute
when `end_time < start_time` as seconds since midnight. -/
theorem random_datetime_between_in_window
    (randint : Int → Int → Int)
    (hrand : ∀ a b : Int, a ≤ b → a ≤ randint a b ∧ randint a b ≤ b)
    (sd ed : Int) (st et : PyTime) :
    (sd ≤ (random_datetime_between randint sd ed st et).1 ∧
      (random_datetime_between randint sd ed st et).1 ≤ max sd ed) ∧
    (ed < sd → (random_datetime_between randint sd ed st et).1 = sd) ∧
    (timeSeconds st / 60 ≤
        (random_datetime_between randint sd ed st et).2.1 * 60 +
          (random_datetime_between randint sd ed st et).2.2 ∧
      (random_datetime_between randint sd ed st et).2.1 * 60 +
          (random_datetime_between randint sd ed st et).2.2 ≤
        max (timeSeconds st) (timeSeconds et) / 60) ∧
    (timeSeconds et < timeSeconds st →
      (random_datetime_between randint sd ed st et).2.1 = st.hour ∧
      (random_datetime_between randint sd ed st et).2.2 = st.minute) := by
  have hday := hrand 0 (max 0 (ed - sd)) (le_max_left 0 _)
  have hr : random_datetime_between randint sd ed st et =
      (sd + randint 0 (max 0 (ed - sd)),
        randint (timeSeconds st)
            (if timeSeconds et < timeSeconds st then timeSeconds st
              else timeSeconds et) / 3600,
        randint (timeSeconds st)
            (if timeSeconds et < timeSeconds st then timeSeconds st
              else timeSeconds et) % 3600 / 60) := rfl
  have hstle : timeSeconds st ≤
      (if timeSeconds et < timeSeconds st then timeSeconds st
        else timeSeconds et) := by split <;> omega
  have hsec := hrand (timeSeconds st) _ hstle
  rw [hr]
  simp only
  have hm := st.minute_lt
  have hs := st.second_lt
  have hh := st.hour_lt
  simp only [timeSeconds] at *
  by_cases hc : (et.hour : Int) * 3600 + (et.minute : Int) * 60 + (et.second : Int) <
      (st.hour : Int) * 3600 + (st.minute : Int) * 60 + (st.second : Int)
  · rw [if_pos hc] at hsec ⊢
    refine ⟨⟨by omega, by omega⟩, fun h => by omega, ⟨?_, ?_⟩, fun _ => ⟨?_, ?_⟩⟩ <;> omega
  · rw [if_neg hc] at hsec ⊢
    refine ⟨⟨by omega, by omega⟩, fun h => by omega, ⟨?_, ?_⟩, fun h => absurd h hc⟩ <;> omega

def pt0800 : PyTime := ⟨8, 0, 0, by omega, by omega, by omega⟩

def pt1700 : PyTime := ⟨17, 0, 0, by omega, by omega, by omega⟩

theorem random_datetime_between_in_window_witness :
    0 ≤ (random_datetime_between (fun a _ => a) 0 3 pt0800 pt1700).1 ∧
    timeSeconds pt0800 / 60 ≤
      (random_datetime_between (fun a _ => a) 0 3 pt0800 pt1700).2.1 * 60 +
        (random_datetime_between (fun a _ => a) 0 3 pt0800 pt1700).2.2 := by
  have h := random_datetime_between_in_window (fun a _ => a)
      (fun a b hab => ⟨le_refl a, hab⟩) 0 3 pt0800 pt1700
  exact ⟨h.1.1, h.2.2.1.1⟩

/-- Python `str.replace(old, new)` on character lists: replace all
non-overlapping occurrences, scanning left to right.  Structurally recursive on
a fuel argument so that it evaluates inside the kernel; `strReplace` passes
fuel `s.length`, which the scan never exhausts, since each step consumes at
least one character of the remaining text when the pattern is non-empty.  With
an empty pattern the text is returned unchanged — a case no call site
exercises: every literal passed to `replace` in main.py is non-empty. -/
def replaceAux : Nat → List Char → List Char → List Char → List Char
  | 0, s, _, _ => s
  | _ + 1, [], _, _ => []
  | fuel + 1, c :: cs, A, B =>
    if !A.isEmpty && A.isPrefixOf (c :: cs) then
      B ++ replaceAux fuel ((c :: cs).drop A.length) A B
    else
      c :: replaceAux fuel cs A B

/-- See `replaceAux`. -/
def strReplace (s A B : List Char) : List Char :=
  replaceAux s.length s A B

/-- The three case-variant property-name replacements and the street-address
replacement (main.py lines 270-273), applied unconditionally to every
template. -/
def applyFixed (t : List Char) : List Char :=
  let t := strReplace t "ЖК Салют".data "ЖК Красный Металлист".data
  let t := strReplace t "жк Салют".data "ЖК Красный Металлист".data
  let t := strReplace t "жк салют".data "ЖК Красный Металлист".data
  let t := strReplace t "ул. 50 лет ВЛКСМ, д. 11/1".data "ул. Гражданская, д. 1/1".data
  t

/-- The full per-apartment substitution chain of `on_generate` (main.py lines
269-277): the fixed replacements of `applyFixed`, then the literal example
apartment phrase rewritten to the real apartment number (line 274, an
f-string: `"Квартира № "` followed by the identifier), then the three
placeholders. -/
def render (template apt date_str time_str : List Char) : List Char :=
  let t := applyFixed template
  let t := strReplace t "Квартира № 19".data ("Квартира № ".data ++ apt)
  let t := strReplace t "\x7b\x7bflat\x7d\x7d".data apt
  let t := strReplace t "\x7b\x7bdate\x7d\x7d".data date_str
  let t := strReplace t "\x7b\x7btime\x7d\x7d".data time_str
  t

/-- Zero-pad a digit string on the left to width `w`, as strftime's `%d`,
`%m`, `%H`, `%M` and `%Y` directives do. -/
def padZero (w : Nat) (s : List Char) : List Char :=
  List.replicate (w - s.length) '0' ++ s

/-- `dt.strftime("%d.%m.%Y")` (main.py line 267) on day/month/year numbers. -/
def formatDate (d m y : Nat) : List Char :=
  padZero 2 (Nat.toDigits 10 d) ++ ".".data ++ padZero 2 (Nat.toDigits 10 m) ++
    ".".data ++ padZero 4 (Nat.toDigits 10 y)

/-- `dt.strftime("%H:%M")` (main.py line 268) on hour/minute numbers. -/
def formatTime (h mi : Nat) : List Char :=
  padZero 2 (Nat.toDigits 10 h) ++ ":".data ++ padZero 2 (Nat.toDigits 10 mi)

/-- C3: rendering applies, in order: the fixed literal replacements (three case
variants of the property name, the street address, and the literal phrase
"Квартира № 19" rewritten to the real apartment number independently of — and
before — the flat placeholder), then the flat placeholder, then the date
placeholder as DD.MM.YYYY, then the time placeholder as zero-padded 24-hour
HH:MM.  Each conjunct exercises one clause; the cross-substitution conjuncts
distinguish this order from the alternatives. -/
theorem render_substitution_order :
    -- the three case variants of the property-name phrase
    render "ЖК Салют".data "1".data (formatDate 1 2 2023) (formatTime 8 5) =
      "ЖК Красный Металлист".data ∧
    render "жк Салют".data "1".data (formatDate 1 2 2023) (formatTime 8 5) =
      "ЖК Красный Металлист".data ∧
    render "жк салют".data "1".data (formatDate 1 2 2023) (formatTime 8 5) =
      "ЖК Красный Металлист".data ∧
    -- the street-address phrase
    render "ул. 50 лет ВЛКСМ, д. 11/1".data "1".data (formatDate 1 2 2023)
        (formatTime 8 5) =
      "ул. Гражданская, д. 1/1".data ∧
    -- the example apartment phrase is rewritten to the real identifier even
    -- with no flat placeholder present, and independently of it
    render "Квартира № 19".data "7".data (formatDate 1 2 2023) (formatTime 8 5) =
      "Квартира № 7".data ∧
    render "Квартира № 19 и \x7b\x7bflat\x7d\x7d".data "5".data
        (formatDate 1 2 2023) (formatTime 8 5) =
      "Квартира № 5 и 5".data ∧
    -- the apartment-phrase rewrite precedes the flat substitution: text that
    -- the flat substitution introduces is not rewritten again
    render "\x7b\x7bflat\x7d\x7d".data "Квартира № 19".data (formatDate 1 2 2023)
        (formatTime 8 5) =
      "Квартира № 19".data ∧
    -- the three placeholders, with DD.MM.YYYY and zero-padded HH:MM formats
    render "\x7b\x7bflat\x7d\x7d".data "5".data (formatDate 1 2 2023)
        (formatTime 8 5) = "5".data ∧
    render "\x7b\x7bdate\x7d\x7d".data "5".data (formatDate 1 2 2023)
        (formatTime 8 5) = "01.02.2023".data ∧
    render "\x7b\x7btime\x7d\x7d".data "5".data (formatDate 1 2 2023)
        (formatTime 8 5) = "08:05".data ∧
    -- flat is substituted before date, and date before time
    render "\x7b\x7bflat\x7d\x7d".data "\x7b\x7bdate\x7d\x7d".data
        (formatDate 1 2 2023) (formatTime 8 5) = "01.02.2023".data ∧
    render "\x7b\x7bdate\x7d\x7d".data "5".data "\x7b\x7btime\x7d\x7d".data
        (formatTime 8 5) = "08:05".data := by
  decide

theorem cond_ne_nil {A s : List Char}
    (h : (!A.isEmpty && A.isPrefixOf s) = true) : A ≠ [] := by
  intro hA; subst hA; simp at h

theorem bool_eq_false_of_ne {b : Bool} (h : ¬ b = true) : b = false := by
  cases b
  · rfl
  · exact absurd rfl h

theorem isPrefixOf_true_iff : ∀ (A s : List Char), A.isPrefixOf s = true ↔ A <+: s := by
  intro A
  induction A with
  | nil =>
    intro s
    simp only [List.isPrefixOf, true_iff]
    exact ⟨s, rfl⟩
  | cons a A ih =>
    intro s
    cases s with
    | nil =>
      constructor
      · intro h; simp [List.isPrefixOf] at h
      · intro h; exact absurd h.length_le (by simp)
    | cons b t =>
      simp only [List.isPrefixOf, Bool.and_eq_true, beq_iff_eq,
        List.cons_prefix_cons, ih t]

theorem replaceAux_fuel_irrel :
    ∀ (f₁ : Nat) (s : List Char) (f₂ : Nat) (A B : List Char),
      s.length ≤ f₁ → s.length ≤ f₂ →
      replaceAux f₁ s A B = replaceAux f₂ s A B := by
  intro f₁
  induction f₁ with
  | zero =>
    intro s f₂ A B h₁ _
    have hs : s = [] := List.length_eq_zero.mp (Nat.le_zero.mp h₁)
    subst hs
    cases f₂ <;> rfl
  | succ f ih =>
    intro s f₂ A B h₁ h₂
    cases s with
    | nil => cases f₂ <;> rfl
    | cons c cs =>
      cases f₂ with
      | zero => simp at h₂
      | succ f₂' =>
        simp only [replaceAux]
        by_cases hcond : (!A.isEmpty && A.isPrefixOf (c :: cs)) = true
        · rw [if_pos hcond, if_pos hcond]
          congr 1
          have hA : 0 < A.length := List.length_pos.mpr (cond_ne_nil hcond)
          apply ih
          · simp only [List.length_drop, List.length_cons]
            simp only [List.length_cons] at h₁
            omega
          · simp only [List.length_drop, List.length_cons]
            simp only [List.length_cons] at h₂
            omega
        · rw [if_neg hcond, if_neg hcond]
          congr 1
          apply ih
          · simp only [List.length_cons] at h₁; omega
          · simp only [List.length_cons] at h₂; omega

theorem strReplace_eq_pos {A : List Char} {c : Char} {cs : List Char} (B : List Char)
    (h : (!A.isEmpty && A.isPrefixOf (c :: cs)) = true) :
    strReplace (c :: cs) A B = B ++ strReplace ((c :: cs).drop A.length) A B := by
  rw [strReplace, strReplace]
  simp only [List.length_cons, replaceAux, if_pos h]
  congr 1
  apply replaceAux_fuel_irrel
  · have hA : 0 < A.length := List.length_pos.mpr (cond_ne_nil h)
    simp only [List.length_drop, List.length_cons]
    omega
  · exact le_rfl

theorem strReplace_eq_neg {A : List Char} {c : Char} {cs : List Char} (B : List Char)
    (h : (!A.isEmpty && A.isPrefixOf (c :: cs)) = false) :
    strReplace (c :: cs) A B = c :: strReplace cs A B := by
  rw [strReplace, strReplace]
  simp only [List.length_cons, replaceAux]
  rw [if_neg (by simp [h])]

theorem strReplace_id_of_no_occ_aux :
    ∀ (n : Nat) (s A B : List Char), s.length ≤ n → ¬ A <:+: s →
      strReplace s A B = s := by
  intro n
  induction n with
  | zero =>
    intro s A B h₁ _
    have hs : s = [] := List.length_eq_zero.mp (Nat.le_zero.mp h₁)
    subst hs; rfl
  | succ n ih =>
    intro s A B h₁ hA
    cases s with
    | nil => rfl
    | cons c cs =>
      cases hcond : (!A.isEmpty && A.isPrefixOf (c :: cs)) with
      | true =>
        have hpre : A <+: c :: cs :=
          (isPrefixOf_true_iff A (c :: cs)).mp (Bool.and_eq_true _ _ |>.mp hcond).2
        exact absurd hpre.isInfix hA
      | false =>
        rw [strReplace_eq_neg B hcond]
        have hA' : ¬ A <:+: cs := fun h =>
          hA (h.trans (List.suffix_cons c cs).isInfix)
        rw [ih cs A B (by simp only [List.length_cons] at h₁; omega) hA']

/-- `str.replace` is the identity when the pattern does not occur in the
text. -/
theorem strReplace_id (s A B : List Char) (h : ¬ A <:+: s) : strReplace s A B = s :=
  strReplace_id_of_no_occ_aux s.length s A B le_rfl h

theorem pre_of_append (Q X Y : List Char) (h : Q <+: X ++ Y) :
    Q <+: X ∨ ∃ q₂, Q = X ++ q₂ ∧ q₂ <+: Y := by
  induction X generalizing Q with
  | nil => exact Or.inr ⟨Q, rfl, by simpa using h⟩
  | cons x X ih =>
    cases Q with
    | nil => exact Or.inl ⟨x :: X, rfl⟩
    | cons q Q' =>
      rw [List.cons_append, List.cons_prefix_cons] at h
      obtain ⟨rfl, h'⟩ := h
      rcases ih Q' h' with h2 | ⟨q₂, rfl, h3⟩
      · exact Or.inl (List.cons_prefix_cons.mpr ⟨rfl, h2⟩)
      · exact Or.inr ⟨q₂, by simp, h3⟩

theorem occ_of_append (Q X Y : List Char) (h : Q <:+: X ++ Y) :
    Q <:+: X ∨ Q <:+: Y ∨
      ∃ q₁ q₂, Q = q₁ ++ q₂ ∧ q₁ ≠ [] ∧ q₂ ≠ [] ∧ q₁ <:+ X ∧ q₂ <+: Y := by
  induction X generalizing Q with
  | nil => exact Or.inr (Or.inl (by simpa using h))
  | cons x X ih =>
    rw [List.cons_append, List.infix_cons_iff] at h
    rcases h with h | h
    · rcases pre_of_append Q (x :: X) Y (by simpa using h) with h2 | ⟨q₂, rfl, h3⟩
      · exact Or.inl h2.isInfix
      · by_cases hq : q₂ = []
        · subst hq
          simp only [List.append_nil]
          exact Or.inl List.infix_rfl
        · exact Or.inr (Or.inr
            ⟨x :: X, q₂, rfl, by simp, hq, List.suffix_refl _, h3⟩)
    · rcases ih Q h with h2 | h2 | ⟨q₁, q₂, rfl, hq1, hq2, hs, hp⟩
      · exact Or.inl (h2.trans (List.suffix_cons x X).isInfix)
      · exact Or.inr (Or.inl h2)
      · exact Or.inr (Or.inr
          ⟨q₁, q₂, rfl, hq1, hq2, hs.trans (List.suffix_cons x X), hp⟩)

/-- `Q` cannot straddle the boundary of an inserted copy of `B`: `B` and `Q`
do not contain one another, no non-empty proper edge of `B` lines up with the
opposite edge of `Q`.  Decidable, so concrete instances are settled by
`decide`. -/
def NoOverlap (B Q : List Char) : Prop :=
  ¬ B <:+: Q ∧ ¬ Q <:+: B ∧
    (∀ k < B.length + 1, 0 < k → k ≤ Q.length →
      B.take k ≠ Q.drop (Q.length - k)) ∧
    (∀ k < B.length + 1, 0 < k → k ≤ Q.length →
      B.drop (B.length - k) ≠ Q.take k)

instance (B Q : List Char) : Decidable (NoOverlap B Q) := by
  unfold NoOverlap; infer_instance

theorem NoOverlap.no_preB_sufQ {B Q : List Char} (h : NoOverlap B Q)
    {R : List Char} (hne : R ≠ []) (hp : R <+: B) (hs : R <:+ Q) : False := by
  have hk1 : 0 < R.length := List.length_pos.mpr hne
  have hk2 : R.length ≤ B.length := hp.length_le
  have hk3 : R.length ≤ Q.length := hs.length_le
  have htake : B.take R.length = R := by
    obtain ⟨t, ht⟩ := hp
    rw [← ht, List.take_left]
  have hdrop : Q.drop (Q.length - R.length) = R := by
    obtain ⟨u, hu⟩ := hs
    have hlen : Q.length - R.length = u.length := by
      rw [← hu]; simp [List.length_append]
    rw [hlen, ← hu, List.drop_left]
  exact h.2.2.1 R.length (by omega) hk1 hk3 (htake.trans hdrop.symm)

theorem NoOverlap.no_sufB_preQ {B Q : List Char} (h : NoOverlap B Q)
    {R : List Char} (hne : R ≠ []) (hs : R <:+ B) (hp : R <+: Q) : False := by
  have hk1 : 0 < R.length := List.length_pos.mpr hne
  have hk2 : R.length ≤ B.length := hs.length_le
  have hk3 : R.length ≤ Q.length := hp.length_le
  have hdrop : B.drop (B.length - R.length) = R := by
    obtain ⟨u, hu⟩ := hs
    have hlen : B.length - R.length = u.length := by
      rw [← hu]; simp [List.length_append]
    rw [hlen, ← hu, List.drop_left]
  have htake : Q.take R.length = R := by
    obtain ⟨t, ht⟩ := hp
    rw [← ht, List.take_left]
  exact h.2.2.2 R.length (by omega) hk1 hk3 (hdrop.trans htake.symm)

theorem strReplace_carry (A B Q : List Char) (hno : NoOverlap B Q) :
    ∀ (n : Nat) (s R : List Char), s.length ≤ n → R <:+ Q →
      R <+: strReplace s A B → R <+: s := by
  intro n
  induction n with
  | zero =>
    intro s R h₁ _ hR
    have hs : s = [] := List.length_eq_zero.mp (Nat.le_zero.mp h₁)
    subst hs; exact hR
  | succ n ih =>
    intro s R h₁ hRQ hR
    cases s with
    | nil => exact hR
    | cons c cs =>
      by_cases hcond : (!A.isEmpty && A.isPrefixOf (c :: cs)) = true
      · rw [strReplace_eq_pos B hcond] at hR
        rcases pre_of_append R B _ hR with h2 | ⟨q₂, rfl, _⟩
        · by_cases hRe : R = []
          · subst hRe; exact ⟨c :: cs, rfl⟩
          · exact (hno.no_preB_sufQ hRe h2 hRQ).elim
        · exact (hno.1 ((List.prefix_append B q₂).isInfix.trans hRQ.isInfix)).elim
      · have hcond' : (!A.isEmpty && A.isPrefixOf (c :: cs)) = false :=
          bool_eq_false_of_ne hcond
        rw [strReplace_eq_neg B hcond'] at hR
        cases R with
        | nil => exact ⟨c :: cs, rfl⟩
        | cons r R' =>
          rw [List.cons_prefix_cons] at hR
          obtain ⟨rfl, hR'⟩ := hR
          have hR'Q : R' <:+ Q := (List.suffix_cons r R').trans hRQ
          have hcs : cs.length ≤ n := by
            simp only [List.length_cons] at h₁; omega
          exact List.cons_prefix_cons.mpr ⟨rfl, ih cs R' hcs hR'Q hR'⟩

theorem strReplace_no_new_occ (A B Q : List Char) (hno : NoOverlap B Q) :
    ∀ (n : Nat) (s : List Char), s.length ≤ n → ¬ Q <:+: s →
      ¬ Q <:+: strReplace s A B := by
  intro n
  induction n with
  | zero =>
    intro s h₁ hs
    have h0 : s = [] := List.length_eq_zero.mp (Nat.le_zero.mp h₁)
    subst h0; exact hs
  | succ n ih =>
    intro s h₁ hs
    cases s with
    | nil => exact hs
    | cons c cs =>
      by_cases hcond : (!A.isEmpty && A.isPrefixOf (c :: cs)) = true
      · rw [strReplace_eq_pos B hcond]
        intro hocc
        rcases occ_of_append Q B _ hocc with h2 | h2 | ⟨q₁, q₂, rfl, hq1, _, hsB, _⟩
        · exact hno.2.1 h2
        · have hA : 0 < A.length := List.length_pos.mpr (cond_ne_nil hcond)
          have hlen : ((c :: cs).drop A.length).length ≤ n := by
            simp only [List.length_drop, List.length_cons]
            simp only [List.length_cons] at h₁
            omega
          have hnot : ¬ Q <:+: (c :: cs).drop A.length := fun h =>
            hs (h.trans (List.drop_suffix A.length (c :: cs)).isInfix)
          exact ih _ hlen hnot h2
        · exact hno.no_sufB_preQ hq1 hsB (List.prefix_append q₁ q₂)
      · have hcond' : (!A.isEmpty && A.isPrefixOf (c :: cs)) = false :=
          bool_eq_false_of_ne hcond
        rw [strReplace_eq_neg B hcond']
        intro hocc
        rcases List.infix_cons_iff.mp hocc with h2 | h2
        · have h3 : Q <+: strReplace (c :: cs) A B := by
            rw [strReplace_eq_neg B hcond']; exact h2
          have h4 : Q <+: c :: cs :=
            strReplace_carry A B Q hno (n + 1) (c :: cs) Q h₁ (List.suffix_refl Q) h3
          exact hs h4.isInfix
        · have hcs : cs.length ≤ n := by
            simp only [List.length_cons] at h₁; omega
          have hnot : ¬ Q <:+: cs := fun h =>
            hs (h.trans (List.suffix_cons c cs).isInfix)
          exact ih cs hcs hnot h2

theorem applyFixed_no_new_occ (P tpl : List Char)
    (h1 : NoOverlap ("ЖК Красный Металлист".data) P)
    (h2 : NoOverlap ("ул. Гражданская, д. 1/1".data) P)
    (hP : ¬ P <:+: tpl) : ¬ P <:+: applyFixed tpl := by
  unfold applyFixed
  exact strReplace_no_new_occ _ _ P h2 _ _ le_rfl
    (strReplace_no_new_occ _ _ P h1 _ _ le_rfl
      (strReplace_no_new_occ _ _ P h1 _ _ le_rfl
        (strReplace_no_new_occ _ _ P h1 _ _ le_rfl hP)))

/-- C7: when a template contains none of the four special substitution
triggers — no "Квартира № 19" phrase and none of the flat/date/time
placeholders — rendering changes it only by the unconditional fixed
legacy-phrase replacements of `applyFixed`; in particular unknown or
malformed placeholder-like text passes through those last four substitution
steps verbatim, and no error is possible (rendering is a total function). -/
theorem render_unrelated_text (tpl apt d ti : List Char)
    (h1 : ¬ ("Квартира № 19".data) <:+: tpl)
    (h2 : ¬ ("\x7b\x7bflat\x7d\x7d".data) <:+: tpl)
    (h3 : ¬ ("\x7b\x7bdate\x7d\x7d".data) <:+: tpl)
    (h4 : ¬ ("\x7b\x7btime\x7d\x7d".data) <:+: tpl) :
    render tpl apt d ti = applyFixed tpl := by
  have hkv := applyFixed_no_new_occ _ tpl (by decide) (by decide) h1
  have hfl := applyFixed_no_new_occ _ tpl (by decide) (by decide) h2
  have hda := applyFixed_no_new_occ _ tpl (by decide) (by decide) h3
  have hti := applyFixed_no_new_occ _ tpl (by decide) (by decide) h4
  show strReplace (strReplace (strReplace (strReplace (applyFixed tpl)
      ("Квартира № 19".data) _) _ _) _ _) _ _ = applyFixed tpl
  rw [strReplace_id _ _ _ hkv, strReplace_id _ _ _ hfl,
    strReplace_id _ _ _ hda, strReplace_id _ _ _ hti]

theorem render_unrelated_text_witness :
    render ("жк салют, \x7b\x7bfalt\x7d\x7d и встреча".data) "5".data
        "01.02.2023".data "08:05".data =
      applyFixed ("жк салют, \x7b\x7bfalt\x7d\x7d и встреча".data) :=
  render_unrelated_text _ "5".data "01.02.2023".data "08:05".data
    (by decide) (by decide) (by decide) (by decide)

/-- Python `str.strip()` with no argument, on ASCII whitespace. -/
def pyStrip (s : List Char) : List Char :=
  ((s.dropWhile isPySpace).reverse.dropWhile isPySpace).reverse

/-- One history entry, as built at main.py line 291. -/
structure HistEntry where
  timestamp : List Char
  count : Nat
  archive : List Char
deriving DecidableEq

/-- `append_history` (main.py lines 44-54): the on-disk history list — empty
when the file is missing or unreadable — with the new entry appended and
written back. -/
def append_history (history : List HistEntry) (entry : HistEntry) :
    List HistEntry :=
  history ++ [entry]

/-- `Path.cwd() / name`, on paths modelled as character lists. -/
def joinPath (dir name : List Char) : List Char :=
  dir ++ "/".data ++ name

/-- The document filename for one apartment, an f-string at main.py
line 278. -/
def docFilename (apt : List Char) : List Char :=
  "Уведомление_кв_".data ++ apt ++ ".docx".data

/-- The per-run output folder name, an f-string at main.py line 262. -/
def outFolderName (ts : List Char) : List Char :=
  "output_notifications_".data ++ ts

/-- Main.py line 286: the trimmed archive name, or the timestamped default
when it is blank (empty strings are falsy, so `or` selects the default). -/
def archiveBase (archiveNameText ts : List Char) : List Char :=
  if pyStrip archiveNameText = [] then "уведомления_".data ++ ts
  else pyStrip archiveNameText

/-- The archive file name with its extension, main.py line 287. -/
def zipFileName (archiveNameText ts : List Char) : List Char :=
  archiveBase archiveNameText ts ++ ".zip".data

/-- The filesystem and persisted stores touched by `on_generate`: created
folders, written document files (full path and rendered content), archives
(an association of archive path to member names), and the history store. -/
structure GenState where
  folders : List (List Char)
  files : List (List Char × List Char)
  archives : List (List Char × List (List Char))
  history : List HistEntry
deriving DecidableEq

/-- `ZipFile(zip_path, "w")` plus the member writes (main.py lines 288-290):
mode `"w"` truncates, so any archive previously at the same path is
replaced. -/
def setArchive (archives : List (List Char × List (List Char)))
    (p : List Char) (members : List (List Char)) :
    List (List Char × List (List Char)) :=
  archives.filter (fun e => e.1 ≠ p) ++ [(p, members)]

/-- The typed failures of a generation run (section numbers refer to the
message boxes of main.py lines 248, 253 and 284). -/
inductive GenError where
  | emptyTemplate
  | emptyApartmentList
  | docWriteFailure (filename : List Char)
deriving DecidableEq

/-- The success report of a run (main.py lines 293-294). -/
structure GenOk where
  count : Nat
  folder : List Char
  archivePath : List Char
deriving DecidableEq

/-- The per-apartment loop of `on_generate` (main.py lines 264-285).
`dateStrOf i` and `timeStrOf i` are the strftime renderings of the random
datetime drawn for the i-th apartment (lines 266-268; the draw itself is
`random_datetime_between`, abstracted into these oracles), and `writeOk i`
tells whether `make_docx_from_text` succeeds for the i-th apartment
(line 281).  On failure the loop stops at once with the failing filename; on
success it returns the accumulated list of generated file names (which are
also their archive member names: `arcname = f.name` at line 290). -/
def genLoop (tpl folder : List Char) (dateStrOf timeStrOf : Nat → List Char)
    (writeOk : Nat → Bool) :
    List (List Char) → Nat → GenState → List (List Char) →
    GenState × Except (List Char) (List (List Char))
  | [], _, st, acc => (st, Except.ok acc)
  | apt :: rest, i, st, acc =>
    let text := render tpl apt (dateStrOf i) (timeStrOf i)
    let filename := docFilename apt
    if writeOk i then
      genLoop tpl folder dateStrOf timeStrOf writeOk rest (i + 1)
        { st with files := st.files ++ [(joinPath folder filename, text)] }
        (acc ++ [filename])
    else
      (st, Except.error filename)

/-- `on_generate` (main.py lines 245-294), with the GUI fields as inputs and
the ambient effects as oracles: `ts` is the strftime timestamp of line 261,
`cwd` is `Path.cwd()`, `histTs` the `datetime.now().isoformat()` of line 291,
and `dateStrOf`/`timeStrOf`/`writeOk` as in `genLoop`.  The date and time
window fields of the GUI feed only the random draw and are absorbed by those
oracles. -/
def on_generate (templateRaw aptsText archiveNameText ts cwd histTs : List Char)
    (dateStrOf timeStrOf : Nat → List Char) (writeOk : Nat → Bool)
    (st : GenState) : GenState × Except GenError GenOk :=
  let template_text := pyStrip templateRaw
  if template_text = [] then (st, Except.error GenError.emptyTemplate)
  else
    let apartments := parse_apartments aptsText
    if apartments = [] then (st, Except.error GenError.emptyApartmentList)
    else
      let out_folder := joinPath cwd (outFolderName ts)
      let st₁ := { st with folders := st.folders ++ [out_folder] }
      match genLoop template_text out_folder dateStrOf timeStrOf writeOk
          apartments 0 st₁ [] with
      | (st₂, Except.error filename) =>
        (st₂, Except.error (GenError.docWriteFailure filename))
      | (st₂, Except.ok names) =>
        let zip_path := joinPath cwd (zipFileName archiveNameText ts)
        let st₃ := { st₂ with archives := setArchive st₂.archives zip_path names }
        let entry : HistEntry := ⟨histTs, names.length, zip_path⟩
        let st₄ := { st₃ with history := append_history st₃.history entry }
        (st₄, Except.ok ⟨names.length, out_folder, zip_path⟩)

/-- The document files (full path and rendered content) the loop writes for
the given apartments, when their indices start at `i`. -/
def docsFor (tpl folder : List Char) (dateStrOf timeStrOf : Nat → List Char) :
    List (List Char) → Nat → List (List Char × List Char)
  | [], _ => []
  | apt :: rest, i =>
    (joinPath folder (docFilename apt),
      render tpl apt (dateStrOf i) (timeStrOf i)) ::
      docsFor tpl folder dateStrOf timeStrOf rest (i + 1)

theorem genLoop_ok (tpl folder : List Char) (dOf tOf : Nat → List Char)
    (wOk : Nat → Bool) :
    ∀ (apts : List (List Char)) (i : Nat) (st : GenState)
      (acc : List (List Char)),
      (∀ j < apts.length, wOk (i + j) = true) →
      genLoop tpl folder dOf tOf wOk apts i st acc =
        ({ st with files := st.files ++ docsFor tpl folder dOf tOf apts i },
          Except.ok (acc ++ apts.map docFilename)) := by
  intro apts
  induction apts with
  | nil => intro i st acc _; simp [genLoop, docsFor]
  | cons apt rest ih =>
    intro i st acc hw
    have h0 : wOk i = true := by simpa using hw 0 (by simp)
    simp only [genLoop, h0, if_true]
    rw [ih (i + 1) _ _ (fun j hj => by
      have := hw (j + 1) (by simpa using hj)
      rwa [show i + (j + 1) = i + 1 + j from by omega] at this)]
    simp [docsFor, List.append_assoc]

theorem genLoop_fail (tpl folder : List Char) (dOf tOf : Nat → List Char)
    (wOk : Nat → Bool) :
    ∀ (apts : List (List Char)) (k i : Nat) (st : GenState)
      (acc : List (List Char)) (hk : k < apts.length),
      wOk (i + k) = false → (∀ j < k, wOk (i + j) = true) →
      genLoop tpl folder dOf tOf wOk apts i st acc =
        ({ st with
            files := st.files ++ docsFor tpl folder dOf tOf (apts.take k) i },
          Except.error (docFilename (apts.get ⟨k, hk⟩))) := by
  intro apts
  induction apts with
  | nil => intro k i st acc hk; simp at hk
  | cons apt rest ih =>
    intro k i st acc hk hfail hpre
    cases k with
    | zero =>
      have h0 : wOk i = false := by simpa using hfail
      simp [genLoop, h0, docsFor]
    | succ k' =>
      have h0 : wOk i = true := by simpa using hpre 0 (Nat.succ_pos k')
      simp only [genLoop, h0, if_true]
      have hk' : k' < rest.length := by simpa using hk
      have hfail' : wOk (i + 1 + k') = false := by
        rw [show i + 1 + k' = i + (k' + 1) from by omega]; exact hfail
      have hpre' : ∀ j < k', wOk (i + 1 + j) = true := fun j hj => by
        rw [show i + 1 + j = i + (j + 1) from by omega]
        exact hpre (j + 1) (by omega)
      rw [ih k' (i + 1) _ _ hk' hfail' hpre']
      simp [docsFor, List.append_assoc]

theorem on_generate_ok_eq
    (templateRaw aptsText archiveNameText ts cwd histTs : List Char)
    (dOf tOf : Nat → List Char) (wOk : Nat → Bool) (st : GenState)
    (htpl : pyStrip templateRaw ≠ [])
    (hapts : parse_apartments aptsText ≠ [])
    (hw : ∀ j < (parse_apartments aptsText).length, wOk j = true) :
    on_generate templateRaw aptsText archiveNameText ts cwd histTs
        dOf tOf wOk st =
      ({ st with
          folders := st.folders ++ [joinPath cwd (outFolderName ts)],
          files := st.files ++ docsFor (pyStrip templateRaw)
            (joinPath cwd (outFolderName ts)) dOf tOf
            (parse_apartments aptsText) 0,
          archives := setArchive st.archives
            (joinPath cwd (zipFileName archiveNameText ts))
            ((parse_apartments aptsText).map docFilename),
          history := st.history ++
            [⟨histTs, (parse_apartments aptsText).length,
              joinPath cwd (zipFileName archiveNameText ts)⟩] },
        Except.ok ⟨(parse_apartments aptsText).length,
          joinPath cwd (outFolderName ts),
          joinPath cwd (zipFileName archiveNameText ts)⟩) := by
  have hloop := genLoop_ok (pyStrip templateRaw)
    (joinPath cwd (outFolderName ts)) dOf tOf wOk
    (parse_apartments aptsText) 0
    { st with folders := st.folders ++ [joinPath cwd (outFolderName ts)] } []
    (fun j hj => by simpa using hw j hj)
  unfold on_generate
  rw [if_neg htpl, if_neg hapts]
  simp only [hloop]
  simp [append_history, List.append_assoc]

/-- C6: a blank template aborts the run with the empty-template error before
any effect on the state, and (the template being non-blank) an apartment input
that normalises to zero identifiers aborts with the empty-apartment-list error
before any effect on the state: no folder, file, archive or history change. -/
theorem on_generate_aborts_on_empty_inputs
    (templateRaw aptsText archiveNameText ts cwd histTs : List Char)
    (dOf tOf : Nat → List Char) (wOk : Nat → Bool) (st : GenState) :
    (pyStrip templateRaw = [] →
      on_generate templateRaw aptsText archiveNameText ts cwd histTs
          dOf tOf wOk st =
        (st, Except.error GenError.emptyTemplate)) ∧
    (pyStrip templateRaw ≠ [] → parse_apartments aptsText = [] →
      on_generate templateRaw aptsText archiveNameText ts cwd histTs
          dOf tOf wOk st =
        (st, Except.error GenError.emptyApartmentList)) := by
  constructor
  · intro h
    unfold on_generate
    rw [if_pos h]
  · intro h1 h2
    unfold on_generate
    rw [if_neg h1, if_pos h2]

def emptyState : GenState := ⟨[], [], [], []⟩

def dOfW : Nat → List Char := fun _ => "01.02.2023".data

def tOfW : Nat → List Char := fun _ => "08:05".data

theorem on_generate_aborts_on_empty_inputs_witness :
    on_generate "  ".data "12".data "arh".data "ts".data "c".data "h".data
        dOfW tOfW (fun _ => true) emptyState =
      (emptyState, Except.error GenError.emptyTemplate) ∧
    on_generate "x".data "abc".data "arh".data "ts".data "c".data "h".data
        dOfW tOfW (fun _ => true) emptyState =
      (emptyState, Except.error GenError.emptyApartmentList) :=
  ⟨(on_generate_aborts_on_empty_inputs "  ".data "12".data "arh".data
      "ts".data "c".data "h".data dOfW tOfW (fun _ => true) emptyState).1
      (by decide),
   (on_generate_aborts_on_empty_inputs "x".data "abc".data "arh".data
      "ts".data "c".data "h".data dOfW tOfW (fun _ => true) emptyState).2
      (by decide) (by decide)⟩

/-- C4: when the first failing document write is the one for the k-th
apartment — whatever k is — the run stops at once with the write-failure
error naming that document: the output folder and the documents for the
apartments before k are on disk (no rollback), but the archives and the
history are exactly as before the run. -/
theorem on_generate_write_failure_aborts
    (templateRaw aptsText archiveNameText ts cwd histTs : List Char)
    (dOf tOf : Nat → List Char) (wOk : Nat → Bool) (st : GenState) (k : Nat)
    (htpl : pyStrip templateRaw ≠ [])
    (hk : k < (parse_apartments aptsText).length)
    (hfail : wOk k = false)
    (hpre : ∀ j < k, wOk j = true) :
    on_generate templateRaw aptsText archiveNameText ts cwd histTs
        dOf tOf wOk st =
      ({ st with
          folders := st.folders ++ [joinPath cwd (outFolderName ts)],
          files := st.files ++ docsFor (pyStrip templateRaw)
            (joinPath cwd (outFolderName ts)) dOf tOf
            ((parse_apartments aptsText).take k) 0 },
        Except.error (GenError.docWriteFailure
          (docFilename ((parse_apartments aptsText).get ⟨k, hk⟩)))) := by
  have hapts : parse_apartments aptsText ≠ [] :=
    List.length_pos.mp (Nat.lt_of_le_of_lt (Nat.zero_le k) hk)
  have hloop := genLoop_fail (pyStrip templateRaw)
    (joinPath cwd (outFolderName ts)) dOf tOf wOk
    (parse_apartments aptsText) k 0
    { st with folders := st.folders ++ [joinPath cwd (outFolderName ts)] } []
    hk (by simpa using hfail) (fun j hj => by simpa using hpre j hj)
  unfold on_generate
  rw [if_neg htpl, if_neg hapts]
  simp only [hloop]

def wOkFail1 : Nat → Bool := fun i => i == 0

theorem on_generate_write_failure_aborts_witness :
    on_generate "t".data "1 2".data "arh".data "ts".data "c".data "h".data
        dOfW tOfW wOkFail1 emptyState =
      ({ emptyState with
          folders := emptyState.folders ++
            [joinPath "c".data (outFolderName "ts".data)],
          files := emptyState.files ++ docsFor (pyStrip "t".data)
            (joinPath "c".data (outFolderName "ts".data)) dOfW tOfW
            ((parse_apartments "1 2".data).take 1) 0 },
        Except.error (GenError.docWriteFailure
          (docFilename ((parse_apartments "1 2".data).get ⟨1, by decide⟩)))) :=
  on_generate_write_failure_aborts "t".data "1 2".data "arh".data "ts".data
    "c".data "h".data dOfW tOfW wOkFail1 emptyState 1
    (by decide) (by decide) (by decide) (by decide)

/-- C5: on a successful run exactly one archive is written, at the path built
from the trimmed archive base name (or the timestamp-suffixed default when
that is blank) with the ".zip" extension, and its member list is exactly one
flat document name per apartment of the normalised list, in order. -/
theorem on_generate_success_archive
    (templateRaw aptsText archiveNameText ts cwd histTs : List Char)
    (dOf tOf : Nat → List Char) (wOk : Nat → Bool) (st : GenState)
    (htpl : pyStrip templateRaw ≠ [])
    (hapts : parse_apartments aptsText ≠ [])
    (hw : ∀ j < (parse_apartments aptsText).length, wOk j = true) :
    on_generate templateRaw aptsText archiveNameText ts cwd histTs
        dOf tOf wOk st =
      ({ st with
          folders := st.folders ++ [joinPath cwd (outFolderName ts)],
          files := st.files ++ docsFor (pyStrip templateRaw)
            (joinPath cwd (outFolderName ts)) dOf tOf
            (parse_apartments aptsText) 0,
          archives := setArchive st.archives
            (joinPath cwd (zipFileName archiveNameText ts))
            ((parse_apartments aptsText).map docFilename),
          history := st.history ++
            [⟨histTs, (parse_apartments aptsText).length,
              joinPath cwd (zipFileName archiveNameText ts)⟩] },
        Except.ok ⟨(parse_apartments aptsText).length,
          joinPath cwd (outFolderName ts),
          joinPath cwd (zipFileName archiveNameText ts)⟩) ∧
    (pyStrip archiveNameText ≠ [] →
      zipFileName archiveNameText ts = pyStrip archiveNameText ++ ".zip".data) ∧
    (pyStrip archiveNameText = [] →
      zipFileName archiveNameText ts =
        ("уведомления_".data ++ ts) ++ ".zip".data) := by
  refine ⟨on_generate_ok_eq templateRaw aptsText archiveNameText ts cwd histTs
      dOf tOf wOk st htpl hapts hw, fun h => ?_, fun h => ?_⟩
  · rw [zipFileName, archiveBase, if_neg h]
  · rw [zipFileName, archiveBase, if_pos h]

theorem on_generate_success_archive_witness :
    zipFileName "arh".data "ts".data = pyStrip "arh".data ++ ".zip".data :=
  (on_generate_success_archive "t".data "1 2".data "arh".data "ts".data
      "c".data "h".data dOfW tOfW (fun _ => true) emptyState
      (by decide) (by decide) (by decide)).2.1 (by decide)

/-- C8: `append_history` is append-only: the previous history is a prefix of
the result (every prior entry still present, unchanged, at its old position),
the length grows by exactly one, and the appended entry is the last one. -/
theorem append_history_append_only :
    ∀ (h : List HistEntry) (e : HistEntry),
      h <+: append_history h e ∧
      (append_history h e).length = h.length + 1 ∧
      (append_history h e).getLast? = some e ∧
      ∀ i, i < h.length → (append_history h e)[i]? = h[i]? := by
  intro h e
  refine ⟨⟨[e], rfl⟩, by simp [append_history], by simp [append_history], ?_⟩
  intro i hi
  simp [append_history, List.getElem?_append, hi]

theorem append_history_append_only_witness :
    (append_history [⟨"t".data, 1, "a".data⟩] ⟨"u".data, 2, "b".data⟩)[0]? =
      [(⟨"t".data, 1, "a".data⟩ : HistEntry)][0]? :=
  (append_history_append_only [⟨"t".data, 1, "a".data⟩]
      ⟨"u".data, 2, "b".data⟩).2.2.2 0 (by decide)

theorem setArchive_filter (l : List (List Char × List (List Char)))
    (p : List Char) (m : List (List Char)) :
    (setArchive l p m).filter (fun e => e.1 = p) = [(p, m)] := by
  unfold setArchive
  rw [List.filter_append]
  have h1 : (l.filter (fun e => e.1 ≠ p)).filter (fun e => e.1 = p) = [] := by
    induction l with
    | nil => rfl
    | cons a l ih =>
      by_cases ha : a.1 = p
      · rw [List.filter_cons_of_neg (by simp [ha])]
        exact ih
      · rw [List.filter_cons_of_pos (by simp [ha]),
          List.filter_cons_of_neg (by simp [ha])]
        exact ih
  rw [h1]
  simp

/-- C10: the archive path is built only from the working directory and the
trimmed base name plus ".zip" — for a non-blank base it does not involve the
run timestamp, unlike the per-run output folder, whose name differs whenever
the timestamp differs; hence two successive successful runs with the same
non-blank base write to one and the same archive path, and after the second
run the archive at that path holds exactly the second run's documents. -/
theorem archive_path_reused_across_runs
    (tpl₁ apts₁ tpl₂ apts₂ base cwd ts₁ ts₂ hts₁ hts₂ : List Char)
    (dOf₁ tOf₁ dOf₂ tOf₂ : Nat → List Char) (wOk₁ wOk₂ : Nat → Bool)
    (st : GenState)
    (hbase : pyStrip base ≠ [])
    (ht₁ : pyStrip tpl₁ ≠ []) (ha₁ : parse_apartments apts₁ ≠ [])
    (hw₁ : ∀ j < (parse_apartments apts₁).length, wOk₁ j = true)
    (ht₂ : pyStrip tpl₂ ≠ []) (ha₂ : parse_apartments apts₂ ≠ [])
    (hw₂ : ∀ j < (parse_apartments apts₂).length, wOk₂ j = true) :
    joinPath cwd (zipFileName base ts₁) = joinPath cwd (zipFileName base ts₂) ∧
    (ts₁ ≠ ts₂ →
      joinPath cwd (outFolderName ts₁) ≠ joinPath cwd (outFolderName ts₂)) ∧
    ∃ st₁ ok₁ st₂ ok₂,
      on_generate tpl₁ apts₁ base ts₁ cwd hts₁ dOf₁ tOf₁ wOk₁ st =
        (st₁, Except.ok ok₁) ∧
      on_generate tpl₂ apts₂ base ts₂ cwd hts₂ dOf₂ tOf₂ wOk₂ st₁ =
        (st₂, Except.ok ok₂) ∧
      ok₁.archivePath = ok₂.archivePath ∧
      st₂.archives.filter (fun e => e.1 = ok₂.archivePath) =
        [(ok₂.archivePath, (parse_apartments apts₂).map docFilename)] := by
  have hzip : ∀ t : List Char, zipFileName base t = pyStrip base ++ ".zip".data :=
    fun t => by rw [zipFileName, archiveBase, if_neg hbase]
  refine ⟨by rw [hzip, hzip], fun hne heq => hne ?_, ?_⟩
  · simp only [joinPath, outFolderName] at heq
    have h1 := List.append_cancel_left heq
    exact List.append_cancel_left h1
  · refine ⟨_, _, _, _,
      on_generate_ok_eq tpl₁ apts₁ base ts₁ cwd hts₁ dOf₁ tOf₁ wOk₁ st
        ht₁ ha₁ hw₁,
      on_generate_ok_eq tpl₂ apts₂ base ts₂ cwd hts₂ dOf₂ tOf₂ wOk₂ _
        ht₂ ha₂ hw₂, ?_, ?_⟩
    · simp only [hzip]
    · simp only [hzip]
      exact setArchive_filter _ _ _

theorem archive_path_reused_across_runs_witness :
    joinPath "c".data (zipFileName "arh".data "t1".data) =
      joinPath "c".data (zipFileName "arh".data "t2".data) ∧
    ("t1".data ≠ "t2".data →
      joinPath "c".data (outFolderName "t1".data) ≠
        joinPath "c".data (outFolderName "t2".data)) ∧
    ∃ st₁ ok₁ st₂ ok₂,
      on_generate "t".data "1".data "arh".data "t1".data "c".data "h1".data
          dOfW tOfW (fun _ => true) emptyState = (st₁, Except.ok ok₁) ∧
      on_generate "t".data "2".data "arh".data "t2".data "c".data "h2".data
          dOfW tOfW (fun _ => true) st₁ = (st₂, Except.ok ok₂) ∧
      ok₁.archivePath = ok₂.archivePath ∧
      st₂.archives.filter (fun e => e.1 = ok₂.archivePath) =
        [(ok₂.archivePath, (parse_apartments "2".data).map docFilename)] :=
  archive_path_reused_across_runs "t".data "1".data "t".data "2".data
    "arh".data "c".data "t1".data "t2".data "h1".data "h2".data
    dOfW tOfW dOfW tOfW (fun _ => true) (fun _ => true) emptyState
    (by decide) (by decide) (by decide) (by decide)
    (by decide) (by decide) (by decide)

end NotifGen

